/-
A verification development for the pyerfa cython generator
(`erfa/cython_generator.py`).  The Python module extracts C function
signatures and argument directions from ERFA source files.  We give a
shallow embedding of its string-processing core: strings are lists of
characters, the specific regular expressions that the module uses are
implemented directly as recursive functions with the exact leftmost /
greedy / lazy matching behaviour they have in Python, and the fallible
construction of a `Function` is modelled with `Except`.
-/
import Mathlib

set_option maxRecDepth 8000

/-- Python strings are modelled as lists of characters. -/
abbrev Str := List Char

/-- Convert a Lean string literal to the model type. -/
def strL (s : String) : Str := s.data

/-- The characters stripped by Python `str.strip()` (ASCII whitespace). -/
def isPySpace (c : Char) : Bool :=
  c = ' ' || c = '\t' || c = '\n' || c = '\r' || c = '\x0b' || c = '\x0c'

/-- Python `s.strip()`. -/
def pyStrip (s : Str) : Str :=
  ((s.dropWhile isPySpace).reverse.dropWhile isPySpace).reverse

/-- Python `s.split(c)` for a one-character separator: always returns
`count(c) + 1` pieces, `[] ↦ [[]]`. -/
def pySplit (c : Char) (s : Str) : List Str :=
  s.foldr
    (fun ch acc =>
      if ch = c then [] :: acc
      else
        match acc with
        | h :: t => (ch :: h) :: t
        | [] => [[ch]])
    [[]]

/-- Split at the first occurrence of character `c`:
`s = before ++ c :: after` gives `(before, some after)`; if `c` does not
occur, `(s, none)`.  Models Python `s.split(c, 1)`. -/
def breakAtChar (c : Char) : Str → Str × Option Str
  | [] => ([], none)
  | x :: s =>
    if x = c then ([], some s)
    else
      match breakAtChar c s with
      | (b, a) => (x :: b, a)

/-- Split at the last occurrence of character `c`; models Python
`s.rsplit(c, 1)` unpacked into two values (`none` when `c` is absent,
in which case the Python 2-tuple unpacking raises `ValueError`). -/
def rsplitChar (c : Char) (s : Str) : Option (Str × Str) :=
  match breakAtChar c s.reverse with
  | (_, none) => none
  | (rn, some rt) => some (rt.reverse, rn.reverse)

/-- Python `sep.join(parts)`. -/
def pyJoin (sep : Str) : List Str → Str
  | [] => []
  | [x] => x
  | x :: xs => x ++ sep ++ pyJoin sep xs

/-- Fuel-driven worker for `pyReplace` (the fuel is an upper bound on the
number of characters consumed, so `s.length` of fuel is always enough). -/
def pyReplaceAux (pat rep : Str) : Nat → Str → Str
  | _, [] => []
  | 0, s => s
  | fuel + 1, c :: s =>
    if pat.isPrefixOf (c :: s) then
      rep ++ pyReplaceAux pat rep fuel (List.drop (pat.length - 1) s)
    else
      c :: pyReplaceAux pat rep fuel s

/-- Python `s.replace(pat, rep)` for a non-empty `pat`: non-overlapping
replacement, scanning left to right. -/
def pyReplace (pat rep s : Str) : Str := pyReplaceAux pat rep s.length s

/-- Fuel-driven worker for `pySplitStr`. -/
def pySplitStrAux (pat : Str) : Nat → Str → List Str
  | _, [] => [[]]
  | 0, s => [s]
  | fuel + 1, c :: s =>
    if pat.isPrefixOf (c :: s) then
      [] :: pySplitStrAux pat fuel (List.drop (pat.length - 1) s)
    else
      match pySplitStrAux pat fuel s with
      | h :: t => (c :: h) :: t
      | [] => [[c]]

/-- Python `s.split(pat)` for a non-empty string separator. -/
def pySplitStr (pat s : Str) : List Str := pySplitStrAux pat s.length s

/-- Python `s.lower()` (ASCII case folding suffices for ERFA names). -/
def strLower (s : Str) : Str := s.map Char.toLower

/-- The module-level `ctype_to_dtype` dictionary, as an association list
in the source's insertion order. -/
def ctype_to_dtype : List (Str × Str) :=
  [ (strL "double",       strL "numpy.double"),
    (strL "double *",     strL "numpy.double"),
    (strL "int",          strL "numpy.int"),
    (strL "int *",        strL "numpy.int"),
    (strL "int[4]",       strL "numpy.dtype([(\x27\x27, \x27i\x27, (4,))])"),
    (strL "double[2]",    strL "numpy.dtype([(\x27\x27, \x27d\x27, (2,))])"),
    (strL "double[3]",    strL "numpy.dtype([(\x27p\x27, \x27d\x27, (3,))])"),
    (strL "double[2][3]", strL "numpy.dtype([(\x27pv\x27, \x27d\x27, (2,3))])"),
    (strL "double[3][3]", strL "numpy.dtype([(\x27r\x27, \x27d\x27, (3,3))])"),
    (strL "eraASTROM *",  strL "dt_eraASTROM"),
    (strL "char *",       strL "numpy.dtype(\x27S1\x27)") ]

/-- Python `ctype_to_dtype[k]`: `none` models the `KeyError` raised on a
key outside the dictionary. -/
def lookupDtype (k : Str) : Option Str :=
  (ctype_to_dtype.find? (fun p => decide (p.1 = k))).map Prod.snd

/-- One parsed documentation line (`ArgumentDoc` in the source): the
Python object keeps `name = None` for non-matching lines; those are
modelled by `parseArgumentDoc` returning `none` and being skipped. -/
structure ArgumentDoc where
  name : Str
  type : Str
  doc : Str
deriving DecidableEq, Repr

/-- `re.search("^ +([^ ]+)[ ]+([^ ]+)[ ]+(.+)", line)` from
`ArgumentDoc.__init__`, implemented with the exact greedy semantics:
the two tokens are maximal runs of non-spaces, the description is the
rest after the following spaces (a single space when only 2 or more
trailing spaces follow the type token, `none` when any piece is empty). -/
def parseArgumentDoc (line : Str) : Option ArgumentDoc :=
  match line.span (fun c => c = ' ') with
  | (sp1, r1) =>
    if sp1.isEmpty then none else
    match r1.span (fun c => c ≠ ' ') with
    | (nm, r2) =>
      if nm.isEmpty then none else
      match r2.span (fun c => c = ' ') with
      | (sp2, r3) =>
        if sp2.isEmpty then none else
        match r3.span (fun c => c ≠ ' ') with
        | (ty, r4) =>
          if ty.isEmpty then none else
          if r4.isEmpty then none else
          match r4.span (fun c => c = ' ') with
          | (sp3, r5) =>
            if r5.isEmpty then
              if 2 ≤ sp3.length then some ⟨nm, ty, [' ']⟩ else none
            else some ⟨nm, ty, r5⟩

/-- The lazy body part of the section regexes: `(.+?)  \n` with
`re.DOTALL` — the shortest non-empty prefix of `s` followed by the
two-space-newline sentinel. -/
def lazyBodyAux (acc : Str) : Str → Option Str
  | [] => none
  | c :: t =>
    if (strL "  \n").isPrefixOf (c :: t) then some acc.reverse
    else lazyBodyAux (c :: acc) t

/-- Entry point for the lazy body: the body must contain at least one
character before the sentinel may start. -/
def lazyBody : Str → Option Str
  | [] => none
  | c :: t => lazyBodyAux [c] t

/-- Try `header([^\n]*):\n(.+?)  \n` anchored at the start of `s`,
returning the captured body.  Because `[^\n]*` and `:` are both
newline-free, the `:` is forced to be the character immediately before
the first newline after the header. -/
def sectionAt (header s : Str) : Option Str :=
  if header.isPrefixOf s then
    match (s.drop header.length).span (fun c => c ≠ '\n') with
    | (ln, rest) =>
      match rest with
      | '\n' :: tail => if ln.getLast? = some ':' then lazyBody tail else none
      | _ => none
  else none

/-- `re.search(header + "([^\\n]*):\\n(.+?)  \\n", doc, re.DOTALL)`:
leftmost position at which the whole pattern matches, returning
`group(2)`. -/
def sectionBody (header : Str) : Str → Option Str
  | [] => none
  | c :: rest =>
    match sectionAt header (c :: rest) with
    | some b => some b
    | none => sectionBody header rest

/-- `FunctionDoc.__init__` normalization:
`doc.replace("**", "  ").replace("/*", "  ").replace("*/", "  ")`. -/
def normDoc (d : Str) : Str :=
  pyReplace (strL "*/") (strL "  ")
    (pyReplace (strL "/*") (strL "  ")
      (pyReplace (strL "**") (strL "  ") d))

/-- Parse the lines of a captured section body, keeping only lines that
match the `ArgumentDoc` pattern (Python skips entries whose `name` is
`None`). -/
def secEntries (body : Str) : List ArgumentDoc :=
  (pySplit '\n' body).filterMap parseArgumentDoc

/-- Entries of an optional section: an absent section contributes
nothing. -/
def entriesOpt : Option Str → List ArgumentDoc
  | none => []
  | some body => secEntries body

/-- `FunctionDoc.input` applied to the (already normalized) comment
text `nd`: the plain `"Given"` search followed by the
`"Given and returned"` search. -/
def FunctionDoc.input (nd : Str) : List ArgumentDoc :=
  entriesOpt (sectionBody (strL "Given") nd) ++
    entriesOpt (sectionBody (strL "Given and returned") nd)

/-- `FunctionDoc.output` applied to the normalized comment text `nd`:
the `"Returned"` search followed by the `"Given and returned"` search. -/
def FunctionDoc.output (nd : Str) : List ArgumentDoc :=
  entriesOpt (sectionBody (strL "Returned") nd) ++
    entriesOpt (sectionBody (strL "Given and returned") nd)

/-- Membership test used by `Argument.inout_state`:
`self.name in entry.name.split(',')`. -/
def listsName (x : Str) (e : ArgumentDoc) : Bool :=
  decide (x ∈ pySplit ',' e.name)

/-- One step of the input loop of `Argument.inout_state`. -/
def inStep (x : Str) (st : Str) (e : ArgumentDoc) : Str :=
  if listsName x e then strL "in" else st

/-- One step of the output loop of `Argument.inout_state`. -/
def outStep (x : Str) (st : Str) (e : ArgumentDoc) : Str :=
  if listsName x e then
    (if st = strL "in" then strL "inout" else strL "out")
  else st

/-- The two sequential loops of `Argument.inout_state`, starting from
the empty string. -/
def inoutOfLists (x : Str) (ins outs : List ArgumentDoc) : Str :=
  outs.foldl (outStep x) (ins.foldl (inStep x) [])

/-- `Argument.inout_state` as a function of the argument name and the
normalized documentation text (the Python property caches this pure
value; it is total and never raises). -/
def inout_state_calc (x nd : Str) : Str :=
  inoutOfLists x (FunctionDoc.input nd) (FunctionDoc.output nd)

/-- The splitting part of `Argument.__init__`: from the stripped
definition fragment produce `(ctype, name)`; `none` models the
`ValueError` of the failed 2-tuple unpacking when the fragment has
neither a `*` nor a space. -/
def argSplit (definition : Str) : Option (Str × Str) :=
  let d := pyStrip definition
  if '*' ∈ d then
    match breakAtChar '*' d with
    | (b, some a) => some (b ++ ['*'], a)
    | (_, none) => none
  else
    match rsplitChar ' ' d with
    | none => none
    | some (t, n) =>
      if '[' ∈ n then
        match breakAtChar '[' n with
        | (nm, some arr) => some (t ++ '[' :: arr, nm)
        | (_, none) => some (t, n)
      else some (t, n)

/-- A parsed C argument (`Argument` in the source).  `inout_state` is
the cached value of the lazily-computed property. -/
structure Argument where
  definition : Str
  ctype : Str
  name : Str
  inout_state : Str
deriving DecidableEq, Repr

/-- `Argument.__init__` for a declaration fragment and the normalized
documentation text; `none` models the `ValueError` on an unsplittable
fragment. -/
def mkArgument (definition nd : Str) : Option Argument :=
  match argSplit definition with
  | none => none
  | some (ct, nm) => some ⟨pyStrip definition, ct, nm, inout_state_calc nm nd⟩

/-- `Argument.ctype_ptr` as a function of the stored ctype (callers in
the pipeline always pass a non-empty ctype; Python indexes `ctype[-1]`). -/
def ctypePtrStr (ct : Str) : Str :=
  if ct.getLast? = some ']' then ct.takeWhile (fun c => c ≠ '[') ++ strL " *"
  else if (strL "const ").isPrefixOf ct then ct.drop (strL "const ").length
  else ct

/-- The `ctype_ptr` property of an `Argument`. -/
def Argument.ctype_ptr (a : Argument) : Str := ctypePtrStr a.ctype

/-- The `dtype` property of an `Argument`: dictionary lookup on the full
annotated ctype spelling (`none` models `KeyError`). -/
def Argument.dtype (a : Argument) : Option Str := lookupDtype a.ctype

/-- The synthetic return pseudo-argument (`Return` in the source): its
`name` and `inout_state` are the fixed sentinels, and its `ctype_ptr`
is the ctype unchanged. -/
structure Return where
  name : Str
  ctype : Str
  inout_state : Str
deriving DecidableEq, Repr

/-- `Return.__init__`. -/
def mkReturn (ct : Str) : Return := ⟨strL "ret", ct, strL "ret"⟩

/-- `Return.ctype_ptr` (stored as the plain ctype). -/
def Return.ctype_ptr (r : Return) : Str := r.ctype

/-- `Return.dtype`. -/
def Return.dtype (r : Return) : Option Str := lookupDtype r.ctype

/-- An element of `Function.args`: the Python list mixes `Argument` and
`Return` objects (duck typing); here a sum. -/
inductive FArg where
  | arg (a : Argument)
  | ret (r : Return)
deriving DecidableEq, Repr

/-- Duck-typed `name` access. -/
def FArg.name : FArg → Str
  | .arg a => a.name
  | .ret r => r.name

/-- Duck-typed `inout_state` access. -/
def FArg.inout_state : FArg → Str
  | .arg a => a.inout_state
  | .ret r => r.inout_state

/-- Duck-typed `ctype` access. -/
def FArg.ctype : FArg → Str
  | .arg a => a.ctype
  | .ret r => r.ctype

/-- `true` exactly on the synthetic return slot. -/
def FArg.isRet : FArg → Bool
  | .arg _ => false
  | .ret _ => true

/-- The exceptions the pipeline can raise.  `attrErr` is the bare
`AttributeError` from calling `.group` on a failed `re.search` result
(it carries no context); `valueErr` is a `ValueError` with its message. -/
inductive GenError where
  | attrErr
  | valueErr (msg : Str)
deriving DecidableEq, Repr

/-- The message built for a missing `match_line`:
`'Could not find the match_line "{0}" in the source file "{1}"'`. -/
def matchLineMsg (ml fp : Str) : Str :=
  strL "Could not find the match_line \x22" ++ ml ++
    strL "\x22 in the source file \x22" ++ fp ++ strL "\x22"

/-- Drop characters through the first newline inclusive. -/
def dropThroughNewline : Str → Str
  | [] => []
  | c :: s => if c = '\n' then s else dropThroughNewline s

/-- Fuel-driven worker for `findLineStart` (the fuel is an upper bound
on the number of lines, so the text length is always enough). -/
def findLineStartAux (ml : Str) : Nat → Str → Option Str
  | _, [] => none
  | 0, _ :: _ => none
  | fuel + 1, c :: s =>
    if ml.isPrefixOf (c :: s) then some (c :: s)
    else findLineStartAux ml fuel (dropThroughNewline (c :: s))

/-- The `readline` loop of `Function.__init__` with a `match_line`:
return the suffix of the source starting at the first line that starts
with `ml` (that suffix is exactly `line + f.read()`), `none` at EOF. -/
def findLineStart (ml s : Str) : Option Str := findLineStartAux ml s.length s

/-- The lazy `(.+?)` closing part of `(/\*.+?\*/)`: `s` starts with
`/*`; the comment body is the shortest non-empty text followed by
`*/`. -/
def g2Close (acc : Str) : Str → Option Str
  | [] => none
  | c :: t =>
    if (strL "*/").isPrefixOf (c :: t) then
      some (strL "/*" ++ acc.reverse ++ strL "*/")
    else g2Close (c :: acc) t

/-- Match group 2 `(/\*.+?\*/)` anchored at `s`. -/
def g2At (s : Str) : Option Str :=
  match s with
  | '/' :: '*' :: c :: t => g2Close [c] t
  | _ => none

/-- Scan for the first position (from the current offset) where
`/\*.+?\*/` matches. -/
def tailSearchAux : Str → Option Str
  | [] => none
  | c :: t =>
    match g2At (c :: t) with
    | some g => some g
    | none => tailSearchAux t

/-- The `.+?(/\*.+?\*/)` tail after group 1: at least one character,
then the nearest following block comment. -/
def tailSearch : Str → Option Str
  | [] => none
  | _ :: rest => tailSearchAux rest

/-- After `name ?\(` has matched: `[^)]+\)` is forced to end at the
first `)`; then run the lazy tail.  `pre` is the text of group 1 so
far. -/
def parenTry (pre t : Str) : Option (Str × Str) :=
  match t.span (fun c => c ≠ ')') with
  | (seg, rest) =>
    match rest with
    | ')' :: tl =>
      if seg.isEmpty then none
      else
        match tailSearch tl with
        | some g2 => some (pre ++ seg ++ [')'], g2)
        | none => none
    | _ => none

/-- Try group 1 `([^\n]+name ?\([^)]+\))` with `[^\n]+` of exactly
`a1len` characters (the caller guarantees those are newline-free). -/
def g1Try (name : Str) (a1len : Nat) (rest : Str) : Option (Str × Str) :=
  let a1 := rest.take a1len
  let after1 := rest.drop a1len
  if name.isPrefixOf after1 then
    match after1.drop name.length with
    | ' ' :: '(' :: t => parenTry (a1 ++ name ++ strL " (") t
    | '(' :: t => parenTry (a1 ++ name ++ strL "(") t
    | _ => none
  else none

/-- Greedy `[^\n]+`: try the longest extent first, backtracking down to
one character. -/
def g1Scan (name rest : Str) : Nat → Option (Str × Str)
  | 0 => none
  | n + 1 =>
    match g1Try name (n + 1) rest with
    | some r => some r
    | none => g1Scan name rest n

/-- `re.search("\n([^\n]+name ?\\([^)]+\\)).+?(/\\*.+?\\*/)", text,
re.DOTALL | re.MULTILINE)`: leftmost match, returning
`(group(1), group(2))`. -/
def locate (name : Str) : Str → Option (Str × Str)
  | [] => none
  | c :: rest =>
    if c = '\n' then
      match g1Scan name rest ((rest.takeWhile (fun x => x ≠ '\n')).length) with
      | some r => some r
      | none => locate name rest
    else locate name rest

/-- `re.search("\\(([^)]+)\\)", cfunc)`: the first `(` that is followed
by at least one non-`)` character and then `)`, returning group 1. -/
def parenGroup : Str → Option Str
  | [] => none
  | c :: rest =>
    if c = '(' then
      match rest.span (fun x => x ≠ ')') with
      | (seg, rest2) =>
        if seg.isEmpty then parenGroup rest
        else
          match rest2 with
          | ')' :: _ => some seg
          | _ => parenGroup rest
    else parenGroup rest

/-- The text before the last occurrence of `pat` (of group-1 of
`re.search("^(.*)" + name, cfunc)`: `(.*)` is greedy and newline-free,
so it reaches the last occurrence of `name` in the first line). -/
def lastOccBefore (pat : Str) : Str → Option Str
  | [] => if pat.isEmpty then some [] else none
  | c :: s =>
    match lastOccBefore pat s with
    | some b => some (c :: b)
    | none => if pat.isPrefixOf (c :: s) then some [] else none

/-- `re.search("^(.*)" + name, cfunc).group(1).strip()`: the declared
return type text. -/
def retType (name c : Str) : Option Str :=
  (lastOccBefore name (c.takeWhile (fun x => x ≠ '\n'))).map pyStrip

/-- Build the `Argument` list for the comma-separated fragments, in
order; the first failing fragment aborts with its `ValueError`
(message as raised by Python 2-tuple unpacking). -/
def mapArgs (nd : Str) : List Str → Except GenError (List FArg)
  | [] => Except.ok []
  | f :: fs =>
    match mkArgument f nd with
    | none =>
      Except.error (.valueErr (strL "not enough values to unpack (expected 2, got 1)"))
    | some a =>
      match mapArgs nd fs with
      | Except.error e => Except.error e
      | Except.ok as => Except.ok (FArg.arg a :: as)

/-- The recovered function model (`Function` in the source).  The
`filepath` attribute (filesystem resolution) is outside the model; the
construction below takes the file contents directly.  `doc` is the
normalized `FunctionDoc.doc` text. -/
structure Function where
  name : Str
  pyname : Str
  filename : Str
  cfunc : Str
  doc : Str
  args : List FArg
  ret : Str
deriving DecidableEq, Repr

/-- The part of `Function.__init__` after the file has been read:
declaration/comment location, argument splitting, and the
scalar-return slot.  Errors are the exceptions Python raises at the
same points (all the `AttributeError`s come from `.group` on a `None`
result of `re.search`). -/
def mkFunctionFrom (name contents : Str) : Except GenError Function :=
  match locate name contents with
  | none => Except.error GenError.attrErr
  | some (g1, g2) =>
    match parenGroup g1 with
    | none => Except.error GenError.attrErr
    | some seg =>
      match mapArgs (normDoc g2) (pySplit ',' seg) with
      | Except.error e => Except.error e
      | Except.ok args =>
        match retType name g1 with
        | none => Except.error GenError.attrErr
        | some r =>
          Except.ok
            { name := name
              pyname := strLower ((pySplitStr (strL "era") name).getLastD [])
              filename :=
                strLower ((pySplitStr (strL "era") name).getLastD []) ++ strL ".c"
              cfunc := g1
              doc := normDoc g2
              args :=
                if r = strL "double" then args ++ [FArg.ret (mkReturn r)] else args
              ret := r }

/-- `Function.__init__` given the file contents: the optional
`match_line` readline loop (whose failure raises the only
contextualized error of the constructor), then the location stage. -/
def mkFunction (name sourceText : Str) (matchLine : Option Str) (filepath : Str) :
    Except GenError Function :=
  match matchLine with
  | none => mkFunctionFrom name sourceText
  | some ml =>
    match findLineStart ml sourceText with
    | some suffix => mkFunctionFrom name ('\n' :: suffix)
    | none => Except.error (GenError.valueErr (matchLineMsg ml filepath))

/-- `Function.args_by_inout(inout_filter)` with no projection: the
stable filter on `inout_state ∈ inout_filter.split('|')`. -/
def Function.args_by_inout (f : Function) (fil : Str) : List FArg :=
  f.args.filter (fun a => decide (a.inout_state ∈ pySplit '|' fil))

/-- `Function.args_by_inout(inout_filter, prop='name')`. -/
def Function.args_by_inout_name (f : Function) (fil : Str) : List Str :=
  (Function.args_by_inout f fil).map FArg.name

/-- `Function.args_by_inout(inout_filter, prop='name', join=j)`. -/
def Function.args_by_inout_name_join (f : Function) (fil j : Str) : Str :=
  pyJoin j (Function.args_by_inout_name f fil)

-- scratch checks (to be removed)
/-- Concrete source buffer: the `eraSepp` end-to-end scenario — a
declaration followed by a body line and the documentation comment. -/
def seppSrc : Str :=
  strL "\ndouble eraSepp(double a[3], double b[3])\nint q;\n/*Given:\n    a        double[3]    first vector\n    b        double[3]    second vector\n  \n*/\n"

/-- The first `eraSepp` argument as the pipeline builds it. -/
def seppA : Argument :=
  ⟨strL "double a[3]", strL "double[3]", strL "a", strL "in"⟩

/-- The second `eraSepp` argument as the pipeline builds it. -/
def seppB : Argument :=
  ⟨strL "double b[3]", strL "double[3]", strL "b", strL "in"⟩

/-- The normalized documentation text of the `eraSepp` scenario. -/
def seppDocN : Str :=
  strL "  Given:\n    a        double[3]    first vector\n    b        double[3]    second vector\n  \n  "

/-- The full `Function` value the pipeline produces for `eraSepp`. -/
def seppFn : Function :=
  { name := strL "eraSepp"
    pyname := strL "sepp"
    filename := strL "sepp.c"
    cfunc := strL "double eraSepp(double a[3], double b[3])"
    doc := seppDocN
    args := [FArg.arg seppA, FArg.arg seppB, FArg.ret (mkReturn (strL "double"))]
    ret := strL "double" }

/-- A documentation text whose only section is `Given and returned`,
listing the single name `x`. -/
def garDoc : Str := strL "Given and returned:\n   x  double  val  \n"

/-- The captured body of `garDoc`'s section. -/
def garBody : Str := strL "   x  double  val"

/-- The entry parsed from `garDoc`'s single documentation line. -/
def garEntry : ArgumentDoc := ⟨strL "x", strL "double", strL "val"⟩

/-- A documentation text listing `x` both under `Returned` and under
`Given and returned`. -/
def dupDoc : Str :=
  strL "Returned:\n   x  double  val  \nGiven and returned:\n   x  double  val  \n"

/-- Modelled from the spec for claim C4 only (a refinement reference,
not part of the source pipeline): "otherwise split on the last
whitespace run into (base type, name)" — the name is the maximal
non-whitespace suffix and the whole preceding whitespace run is the
separator. -/
def specSplitLastWsRun (s : Str) : Option (Str × Str) :=
  match (pyStrip s).reverse.span (fun c => !(isPySpace c)) with
  | (rn, rrest) =>
    match rrest.span isPySpace with
    | (rws, rty) => if rws.isEmpty then none else some (rty.reverse, rn.reverse)

/-! ### Helper lemmas -/

theorem inFold_char (x : Str) (l : List ArgumentDoc) (st0 : Str) :
    l.foldl (inStep x) st0 = if l.any (listsName x) then strL "in" else st0 := by
  induction l generalizing st0 with
  | nil => simp
  | cons e t ih =>
    cases h : listsName x e with
    | true => simp [List.foldl_cons, inStep, h, ih]
    | false => simp [List.foldl_cons, inStep, h, ih]

theorem outFold_nomatch (x : Str) (l : List ArgumentDoc) (st : Str)
    (h : ∀ e ∈ l, listsName x e = false) :
    l.foldl (outStep x) st = st := by
  induction l generalizing st with
  | nil => rfl
  | cons e t ih =>
    have he : listsName x e = false := h e (List.mem_cons_self e t)
    have ht : ∀ e ∈ t, listsName x e = false := fun e hm => h e (List.mem_cons_of_mem _ hm)
    simp [List.foldl_cons, outStep, he, ih _ ht]

theorem outFold_unique (x : Str) (l : List ArgumentDoc)
    (h : l.countP (listsName x) = 1) :
    l.foldl (outStep x) (strL "in") = strL "inout" := by
  induction l with
  | nil => simp [List.countP_nil] at h
  | cons e t ih =>
    rw [List.countP_cons] at h
    cases he : listsName x e with
    | true =>
      simp [he] at h
      have hall : ∀ e ∈ t, listsName x e = false := h
      have hstep : outStep x (strL "in") e = strL "inout" := by
        simp [outStep, he]
      rw [List.foldl_cons, hstep, outFold_nomatch x t _ hall]
    | false =>
      simp [he] at h
      have hstep : outStep x (strL "in") e = strL "in" := by simp [outStep, he]
      rw [List.foldl_cons, hstep]
      exact ih h

theorem findKey (l : List (Str × Str)) (k : Str) :
    (k ∈ l.map Prod.fst → (l.find? (fun p => decide (p.1 = k))).isSome = true) ∧
      (k ∉ l.map Prod.fst → l.find? (fun p => decide (p.1 = k)) = none) := by
  induction l with
  | nil => simp
  | cons a t ih =>
    by_cases h : a.1 = k
    · constructor
      · intro _
        simp [List.find?_cons, h]
      · intro hmem
        exact absurd (by simp [h]) hmem
    · constructor
      · intro hmem
        have : k ∈ t.map Prod.fst := by
          rcases List.mem_cons.mp hmem with h1 | h1
          · exact absurd h1.symm h
          · exact h1
        simpa [List.find?_cons, h] using ih.1 this
      · intro hmem
        have h2 : k ∉ t.map Prod.fst := fun hc => hmem (by simp [hc])
        simpa [List.find?_cons, h] using ih.2 h2

theorem mapArgs_not_ret (nd : Str) (l : List Str) (as : List FArg)
    (h : mapArgs nd l = Except.ok as) : ∀ p ∈ as, FArg.isRet p = false := by
  induction l generalizing as with
  | nil =>
    simp only [mapArgs, Except.ok.injEq] at h
    subst h
    simp
  | cons f fs ih =>
    simp only [mapArgs] at h
    split at h
    · exact absurd h (by simp)
    · split at h
      · exact absurd h (by simp)
      · rename_i a _ bs hbs
        simp only [Except.ok.injEq] at h
        subst h
        intro p hp
        rcases List.mem_cons.mp hp with h1 | h1
        · subst h1; rfl
        · exact ih bs hbs p h1

theorem mapArgs_length (nd : Str) (l : List Str) (as : List FArg)
    (h : mapArgs nd l = Except.ok as) : as.length = l.length := by
  induction l generalizing as with
  | nil =>
    simp only [mapArgs, Except.ok.injEq] at h
    subst h
    rfl
  | cons f fs ih =>
    simp only [mapArgs] at h
    split at h
    · exact absurd h (by simp)
    · split at h
      · exact absurd h (by simp)
      · rename_i a _ bs hbs
        simp only [Except.ok.injEq] at h
        subst h
        simp [ih bs hbs]

theorem mapArgs_get (nd : Str) (l : List Str) (as : List FArg)
    (h : mapArgs nd l = Except.ok as) :
    ∀ i (hi : i < l.length) (hj : i < as.length),
      ∃ a : Argument,
        mkArgument (l.get ⟨i, hi⟩) nd = some a ∧ as.get ⟨i, hj⟩ = FArg.arg a := by
  induction l generalizing as with
  | nil => intro i hi; exact absurd hi (by simp)
  | cons f fs ih =>
    cases hA : mkArgument f nd with
    | none => simp [mapArgs, hA] at h
    | some a =>
      cases hB : mapArgs nd fs with
      | error e => simp [mapArgs, hA, hB] at h
      | ok bs =>
        simp only [mapArgs, hA, hB, Except.ok.injEq] at h
        subst h
        intro i hi hj
        cases i with
        | zero => exact ⟨a, hA, rfl⟩
        | succ n =>
          exact ih bs hB n (Nat.lt_of_succ_lt_succ hi) (Nat.lt_of_succ_lt_succ hj)

theorem mkFunctionFrom_ok_inv (name contents : Str) (f : Function)
    (h : mkFunctionFrom name contents = Except.ok f) :
    ∃ g1 g2 seg args r,
      locate name contents = some (g1, g2) ∧
      parenGroup g1 = some seg ∧
      mapArgs (normDoc g2) (pySplit ',' seg) = Except.ok args ∧
      retType name g1 = some r ∧
      f = { name := name
            pyname := strLower ((pySplitStr (strL "era") name).getLastD [])
            filename := strLower ((pySplitStr (strL "era") name).getLastD []) ++ strL ".c"
            cfunc := g1
            doc := normDoc g2
            args := if r = strL "double" then args ++ [FArg.ret (mkReturn r)] else args
            ret := r } := by
  unfold mkFunctionFrom at h
  cases hl : locate name contents with
  | none => simp [hl] at h
  | some p =>
    obtain ⟨g1, g2⟩ := p
    simp only [hl] at h
    cases hp : parenGroup g1 with
    | none => simp [hp] at h
    | some seg =>
      simp only [hp] at h
      cases hm : mapArgs (normDoc g2) (pySplit ',' seg) with
      | error e => simp [hm] at h
      | ok args =>
        simp only [hm] at h
        cases hr : retType name g1 with
        | none => simp [hr] at h
        | some r =>
          simp only [hr, Except.ok.injEq] at h
          exact ⟨g1, g2, seg, args, r, rfl, hp, hm, hr, h.symm⟩

theorem mkFunction_ok_contents (name src fp : Str) (ml : Option Str) (f : Function)
    (h : mkFunction name src ml fp = Except.ok f) :
    ∃ contents, mkFunctionFrom name contents = Except.ok f := by
  cases ml with
  | none => exact ⟨src, h⟩
  | some m =>
    cases hf : findLineStart m src with
    | none => simp [mkFunction, hf] at h
    | some suffix =>
      simp only [mkFunction, hf] at h
      exact ⟨'\n' :: suffix, h⟩

theorem breakAtChar_append (c : Char) (xs ys : Str) (h : c ∉ xs) :
    breakAtChar c (xs ++ c :: ys) = (xs, some ys) := by
  induction xs with
  | nil => simp [breakAtChar]
  | cons x t ih =>
    have hx : x ≠ c := fun hc => h (hc ▸ List.mem_cons_self x t)
    have ht : c ∉ t := fun hc => h (List.mem_cons_of_mem _ hc)
    simp [breakAtChar, hx, ih ht]

theorem isPrefixOf_append_self (l r : Str) : l.isPrefixOf (l ++ r) = true := by
  induction l with
  | nil => simp [List.isPrefixOf]
  | cons x t ih => simp [List.isPrefixOf, ih]

theorem takeWhile_until_bracket (b brkt : Str) (h : '[' ∉ b) :
    (b ++ '[' :: brkt).takeWhile (fun c => c ≠ '[') = b := by
  induction b with
  | nil => simp [List.takeWhile_cons]
  | cons x t ih =>
    have hx : x ≠ '[' := fun hc => h (hc ▸ List.mem_cons_self x t)
    have ht : '[' ∉ t := fun hc => h (List.mem_cons_of_mem _ hc)
    have hrest := ih ht
    simp only [decide_not] at hrest
    simp [List.takeWhile_cons, hx, hrest]

/-! ### Claim theorems -/

/-- C2: for every signature argument whose name appears in no
documentation section (neither in the inputs nor the outputs name sets,
after comma-splitting entry names), the derived direction is the empty
`unknown` value; the derivation is a total function of the name and the
documentation text, so it never raises. -/
theorem c2_undocumented_unknown (x nd : Str)
    (hin : ∀ e ∈ FunctionDoc.input nd, listsName x e = false)
    (hout : ∀ e ∈ FunctionDoc.output nd, listsName x e = false) :
    inout_state_calc x nd = [] ∧
      ∀ frag a, mkArgument frag nd = some a → a.name = x → a.inout_state = [] := by
  have hany : (FunctionDoc.input nd).any (listsName x) = false := by
    rw [List.any_eq_false]
    intro e he
    simp [hin e he]
  have h1 : inout_state_calc x nd = [] := by
    unfold inout_state_calc inoutOfLists
    rw [inFold_char, hany]
    simp only [Bool.false_eq_true, if_false]
    exact outFold_nomatch x _ [] hout
  refine ⟨h1, ?_⟩
  intro frag a hmk hname
  cases hs : argSplit frag with
  | none => simp [mkArgument, hs] at hmk
  | some p =>
    obtain ⟨ct, nm⟩ := p
    simp only [mkArgument, hs, Option.some.injEq] at hmk
    subst hmk
    have hx : nm = x := hname
    show inout_state_calc nm nd = []
    rw [hx]
    exact h1

/-- C2 witness: the name `zz` is listed nowhere in the `eraSepp`
documentation, and its derived direction is the empty string. -/
theorem c2_undocumented_unknown_witness : inout_state_calc (strL "zz") seppDocN = [] :=
  (c2_undocumented_unknown (strL "zz") seppDocN (by decide) (by decide)).1

/-- C1 (amended): for a documentation block with a `Given and returned`
section listing name `x`, `x` is in both the inputs and the outputs
name sets; and, provided `x` matches exactly one entry of the outputs
sequence, the derived direction of a signature argument named `x` is
`inout`. -/
theorem c1_gar_inout (nd x body : Str) (e : ArgumentDoc)
    (hgar : sectionBody (strL "Given and returned") nd = some body)
    (he : e ∈ secEntries body)
    (hx : listsName x e = true)
    (huniq : (FunctionDoc.output nd).countP (listsName x) = 1) :
    (FunctionDoc.input nd).any (listsName x) = true ∧
      (FunctionDoc.output nd).any (listsName x) = true ∧
      inout_state_calc x nd = strL "inout" ∧
      ∀ frag a, mkArgument frag nd = some a → a.name = x →
        a.inout_state = strL "inout" := by
  have hmem_in : e ∈ FunctionDoc.input nd := by
    unfold FunctionDoc.input
    rw [hgar]
    exact List.mem_append_right _ he
  have hmem_out : e ∈ FunctionDoc.output nd := by
    unfold FunctionDoc.output
    rw [hgar]
    exact List.mem_append_right _ he
  have hany_in : (FunctionDoc.input nd).any (listsName x) = true :=
    List.any_eq_true.mpr ⟨e, hmem_in, by simp [hx]⟩
  have hany_out : (FunctionDoc.output nd).any (listsName x) = true :=
    List.any_eq_true.mpr ⟨e, hmem_out, by simp [hx]⟩
  have h1 : inout_state_calc x nd = strL "inout" := by
    unfold inout_state_calc inoutOfLists
    rw [inFold_char, hany_in]
    simp only [if_true]
    exact outFold_unique x _ huniq
  refine ⟨hany_in, hany_out, h1, ?_⟩
  intro frag a hmk hname
  cases hs : argSplit frag with
  | none => simp [mkArgument, hs] at hmk
  | some p =>
    obtain ⟨ct, nm⟩ := p
    simp only [mkArgument, hs, Option.some.injEq] at hmk
    subst hmk
    have hnx : nm = x := hname
    show inout_state_calc nm nd = strL "inout"
    rw [hnx]
    exact h1

/-- C1 witness: in a block whose only section is `Given and returned`
listing `x`, the derived direction of `x` is `inout`. -/
theorem c1_gar_inout_witness : inout_state_calc (strL "x") garDoc = strL "inout" :=
  (c1_gar_inout garDoc (strL "x") garBody garEntry rfl (by decide) (by decide)
    (by decide)).2.2.1

/-- C1 counterexample: a block lists `x` both under `Returned` and under
`Given and returned`; the `Given and returned` section exists and lists
`x`, yet the derived direction is `out`, not `inout` (the output loop
of `Argument.inout_state` overwrites `inout` with `out` on the second
matching output entry). -/
theorem c1_counterexample :
    (entriesOpt (sectionBody (strL "Given and returned") dupDoc)).any
        (listsName (strL "x")) = true ∧
      inout_state_calc (strL "x") dupDoc = strL "out" ∧
      strL "out" ≠ strL "inout" :=
  ⟨rfl, rfl, by decide⟩

/-- C10 counterexample: `dupDoc` is inside the claim's stated scope —
it has a sentinel-terminated `Given and returned` section and no
earlier plain `Given` section (the generic `Given ...:` search captures
the very same body as the `Given and returned ...:` search) — yet,
because it also has a `Returned` section, the section's entry appears
twice in the outputs rather than once, and the derived direction of
`x` is `out`, not the `inout` that the membership-only (deduplicated)
computation gives: directions are affected after all. -/
theorem c10_counterexample :
    sectionBody (strL "Given") dupDoc = some garBody ∧
      sectionBody (strL "Given and returned") dupDoc = some garBody ∧
      FunctionDoc.input dupDoc = [garEntry, garEntry] ∧
      FunctionDoc.output dupDoc = [garEntry, garEntry] ∧
      [garEntry, garEntry] ≠ [garEntry] ∧
      inout_state_calc (strL "x") dupDoc = strL "out" ∧
      inoutOfLists (strL "x") (secEntries garBody) (secEntries garBody) =
        strL "inout" ∧
      strL "out" ≠ strL "inout" :=
  ⟨rfl, rfl, rfl, rfl, by decide, rfl, rfl, by decide⟩

/-- C10 (amended): when the `Given ...:` search and the
`Given and returned ...:` search capture the same section (no earlier
plain `Given` section) and there is additionally no `Returned` section,
every entry of that section appears twice in the parsed inputs and once
in the outputs, and derived directions are unaffected by the
duplication. -/
theorem c10_gar_duplication (nd body : Str)
    (hg : sectionBody (strL "Given") nd = some body)
    (hgar : sectionBody (strL "Given and returned") nd = some body)
    (hret : sectionBody (strL "Returned") nd = none) :
    FunctionDoc.input nd = secEntries body ++ secEntries body ∧
      FunctionDoc.output nd = secEntries body ∧
      ∀ x, inout_state_calc x nd =
        inoutOfLists x (secEntries body) (secEntries body) := by
  have h1 : FunctionDoc.input nd = secEntries body ++ secEntries body := by
    unfold FunctionDoc.input
    rw [hg, hgar]
    rfl
  have h2 : FunctionDoc.output nd = secEntries body := by
    unfold FunctionDoc.output
    rw [hret, hgar]
    rfl
  refine ⟨h1, h2, ?_⟩
  intro x
  unfold inout_state_calc
  rw [h1, h2]
  unfold inoutOfLists
  rw [inFold_char, inFold_char, List.any_append, Bool.or_self]

/-- C10 witness: on the concrete one-section block the inputs hold the
entry twice, and the direction of `x` matches the deduplicated
computation. -/
theorem c10_gar_duplication_witness :
    FunctionDoc.input garDoc = secEntries garBody ++ secEntries garBody ∧
      inout_state_calc (strL "x") garDoc =
        inoutOfLists (strL "x") (secEntries garBody) (secEntries garBody) :=
  ⟨(c10_gar_duplication garDoc garBody rfl rfl rfl).1,
    (c10_gar_duplication garDoc garBody rfl rfl rfl).2.2 (strL "x")⟩

/-- C4 counterexample: on the fragment `"double  a"` (two spaces) the
code splits at the last single space character, keeping the first space
in the base type (`"double "`), whereas splitting on the last
whitespace run would give base type `"double"`. -/
theorem c4_counterexample :
    argSplit (strL "double  a") = some (strL "double ", strL "a") ∧
      specSplitLastWsRun (strL "double  a") = some (strL "double", strL "a") ∧
      strL "double " ≠ strL "double" :=
  ⟨rfl, rfl, by decide⟩

/-- C4 (amended): a fragment containing `*` is split at the first `*`
into base type (marked as a pointer form) and name; otherwise the
fragment is split at the last single `' '` character (the base type
keeps any further adjacent whitespace), and an array-dimension suffix
on the name is moved into the type. -/
theorem c4_split_amended (b a ty nm arr s2 s : Str)
    (hb : pyStrip s2 = b ++ '*' :: a) (hbstar : '*' ∉ b)
    (hs : pyStrip s = ty ++ ' ' :: (nm ++ arr))
    (hstar : '*' ∉ ty ++ ' ' :: (nm ++ arr))
    (hsp : ' ' ∉ nm ++ arr)
    (hbr : '[' ∉ nm)
    (harr : arr = [] ∨ arr.head? = some '[') :
    argSplit s2 = some (b ++ ['*'], a) ∧ argSplit s = some (ty ++ arr, nm) := by
  constructor
  · have h1 : '*' ∈ b ++ '*' :: a := List.mem_append_right _ (List.mem_cons_self _ _)
    simp only [argSplit, hb]
    rw [if_pos h1, breakAtChar_append '*' b a hbstar]
  · have hrs : rsplitChar ' ' (ty ++ ' ' :: (nm ++ arr)) = some (ty, nm ++ arr) := by
      unfold rsplitChar
      have hrev : (ty ++ ' ' :: (nm ++ arr)).reverse =
          (nm ++ arr).reverse ++ ' ' :: ty.reverse := by
        simp
      have hnosp : ' ' ∉ (nm ++ arr).reverse := by
        rw [List.mem_reverse]
        exact hsp
      rw [hrev, breakAtChar_append ' ' _ _ hnosp]
      simp
    rcases harr with h | h
    · subst h
      simp only [argSplit, hs]
      rw [if_neg hstar, hrs]
      simp [hbr]
    · cases arr with
      | nil => simp at h
      | cons y t =>
        simp only [List.head?_cons, Option.some.injEq] at h
        subst h
        have hin : '[' ∈ nm ++ '[' :: t :=
          List.mem_append_right _ (List.mem_cons_self _ _)
        simp only [argSplit, hs]
        rw [if_neg hstar, hrs]
        simp [hin, breakAtChar_append '[' nm t hbr]

/-- C4 witness: the pointer fragment `"double *ra"` and the claim's own
example `"double pv[2][3]"` (type `"double[2][3]"`, name `"pv"`). -/
theorem c4_split_amended_witness :
    argSplit (strL "double *ra") = some (strL "double " ++ ['*'], strL "ra") ∧
      argSplit (strL "double pv[2][3]") =
        some (strL "double" ++ strL "[2][3]", strL "pv") :=
  c4_split_amended (strL "double ") (strL "ra") (strL "double") (strL "pv")
    (strL "[2][3]") (strL "double *ra") (strL "double pv[2][3]")
    (by decide) (by decide) (by decide) (by decide) (by decide) (by decide)
    (by decide)

/-- C8: the storage-descriptor mapping is a closed contract — every
spelling in the fixed key set resolves to a descriptor, and every
spelling outside it is a hard lookup failure (`KeyError`), never a
default value. -/
theorem c8_closed_type_map (k : Str) :
    (k ∈ ctype_to_dtype.map Prod.fst → (lookupDtype k).isSome = true) ∧
      (k ∉ ctype_to_dtype.map Prod.fst → lookupDtype k = none) := by
  constructor
  · intro h
    obtain ⟨v, hv⟩ := Option.isSome_iff_exists.mp ((findKey ctype_to_dtype k).1 h)
    unfold lookupDtype
    rw [hv]
    rfl
  · intro h
    unfold lookupDtype
    rw [(findKey ctype_to_dtype k).2 h]
    rfl

/-- C8 witness: `"double"` is in the key set and resolves; the
const-qualified spelling `"const char *"` is outside it and fails. -/
theorem c8_closed_type_map_witness :
    (lookupDtype (strL "double")).isSome = true ∧
      lookupDtype (strL "const char *") = none :=
  ⟨(c8_closed_type_map (strL "double")).1 (by decide),
    (c8_closed_type_map (strL "const char *")).2 (by decide)⟩

/-- C9 counterexample: for an argument declared `"const char *s"` the
stored full spelling is `"const char *"`; its pointer-stripped call
type is the normalized `"char *"`, but the descriptor lookup — which is
keyed on the full spelling — fails on `"const char *"` instead of
succeeding as the claim states. -/
theorem c9_counterexample :
    argSplit (strL "const char *s") = some (strL "const char *", strL "s") ∧
      ctypePtrStr (strL "const char *") = strL "char *" ∧
      lookupDtype (strL "const char *") = none :=
  ⟨rfl, rfl, rfl⟩

/-- C9 (amended): `ctype_ptr` rewrites a trailing array-bracket suffix
to the pointer form of the base type and strips a leading `"const "`
qualifier, while `dtype` looks up the full annotated spelling — so the
lookup succeeds for `"double[3]"` but fails for `"const char *"`,
which is not a key of the mapping. -/
theorem c9_normalization_amended (b brkt r : Str)
    (hb : '[' ∉ b)
    (hlast : (b ++ '[' :: brkt).getLast? = some ']')
    (hr : ¬ (strL "const " ++ r).getLast? = some ']') :
    ctypePtrStr (b ++ '[' :: brkt) = b ++ strL " *" ∧
      ctypePtrStr (strL "const " ++ r) = r ∧
      (lookupDtype (strL "double[3]")).isSome = true ∧
      lookupDtype (strL "const char *") = none := by
  refine ⟨?_, ?_, rfl, rfl⟩
  · unfold ctypePtrStr
    rw [if_pos hlast, takeWhile_until_bracket b brkt hb]
  · unfold ctypePtrStr
    rw [if_neg hr, if_pos (isPrefixOf_append_self (strL "const ") r)]
    exact List.drop_left _ _

/-- C9 witness: instantiated at `"double[3]"` and `"const char *"`. -/
theorem c9_normalization_amended_witness :
    ctypePtrStr (strL "double" ++ '[' :: strL "3]") = strL "double" ++ strL " *" ∧
      ctypePtrStr (strL "const " ++ strL "char *") = strL "char *" ∧
      (lookupDtype (strL "double[3]")).isSome = true ∧
      lookupDtype (strL "const char *") = none :=
  c9_normalization_amended (strL "double") (strL "3]") (strL "char *")
    (by decide) (by decide) (by decide)

/-- C3 counterexample: for a buffer containing no declaration/comment
pair for `eraAbc`, construction fails — but with the bare, context-free
`AttributeError` (`'NoneType' object has no attribute 'group'`), not an
error identifying the function name, file path and search pattern. -/
theorem c3_counterexample :
    mkFunction (strL "eraAbc") (strL "no declarations here") none (strL "file.c") =
      Except.error GenError.attrErr := rfl

/-- C3 (amended): when no declaration-plus-comment pair matches, the
construction fails hard, but with the context-free `attrErr`; only the
anchor-line (`match_line`) search failure raises a `ValueError` whose
message carries the anchor text and the file path (not the function
name). -/
theorem c3_error_amended (name src fp ml : Str) :
    (locate name src = none →
        mkFunction name src none fp = Except.error GenError.attrErr) ∧
      (findLineStart ml src = none →
        mkFunction name src (some ml) fp =
          Except.error (GenError.valueErr (matchLineMsg ml fp))) := by
  constructor
  · intro h
    simp [mkFunction, mkFunctionFrom, h]
  · intro h
    simp [mkFunction, h]

/-- C3 witness: a concrete buffer without the function, with and
without an anchor line. -/
theorem c3_error_amended_witness :
    mkFunction (strL "eraXyz") (strL "int w;\n") none (strL "g.c") =
        Except.error GenError.attrErr ∧
      mkFunction (strL "eraXyz") (strL "int w;\n") (some (strL "double eraXyz"))
          (strL "g.c") =
        Except.error
          (GenError.valueErr (matchLineMsg (strL "double eraXyz") (strL "g.c"))) :=
  ⟨(c3_error_amended (strL "eraXyz") (strL "int w;\n") (strL "g.c")
      (strL "double eraXyz")).1 (by decide),
    (c3_error_amended (strL "eraXyz") (strL "int w;\n") (strL "g.c")
      (strL "double eraXyz")).2 (by decide)⟩

/-- C5: for every located declaration whose parenthesized parameter
text splits into K comma-separated fragments, exactly K `Argument`s are
produced (not counting the optional trailing `Return` slot), in the
order of the fragments. -/
theorem c5_arg_count_order (name src fp seg : Str) (ml : Option Str) (f : Function)
    (hok : mkFunction name src ml fp = Except.ok f)
    (hseg : parenGroup f.cfunc = some seg) :
    (f.args.filter (fun p => !(FArg.isRet p))).length = (pySplit ',' seg).length ∧
      ∀ i (hi : i < (pySplit ',' seg).length)
        (hj : i < (f.args.filter (fun p => !(FArg.isRet p))).length),
        ∃ a : Argument,
          mkArgument ((pySplit ',' seg).get ⟨i, hi⟩) f.doc = some a ∧
            (f.args.filter (fun p => !(FArg.isRet p))).get ⟨i, hj⟩ = FArg.arg a := by
  obtain ⟨contents, hcf⟩ := mkFunction_ok_contents name src fp ml f hok
  obtain ⟨g1, g2, seg', args, r, hl, hp, hm, hr, hf⟩ :=
    mkFunctionFrom_ok_inv name contents f hcf
  have hargs : f.args =
      (if r = strL "double" then args ++ [FArg.ret (mkReturn r)] else args) := by
    rw [hf]
  have hcfunc : f.cfunc = g1 := by rw [hf]
  have hdoc : f.doc = normDoc g2 := by rw [hf]
  rw [hcfunc] at hseg
  rw [hp] at hseg
  have hsegeq : seg' = seg := by
    simpa using hseg
  subst hsegeq
  have hnr := mapArgs_not_ret (normDoc g2) (pySplit ',' seg') args hm
  have hfilter : f.args.filter (fun p => !(FArg.isRet p)) = args := by
    rw [hargs]
    by_cases hd : r = strL "double"
    · rw [if_pos hd, List.filter_append]
      have h1 : args.filter (fun p => !(FArg.isRet p)) = args :=
        List.filter_eq_self.mpr (fun a ha => by simp [hnr a ha])
      rw [h1]
      simp [FArg.isRet]
    · rw [if_neg hd]
      exact List.filter_eq_self.mpr (fun a ha => by simp [hnr a ha])
  constructor
  · rw [hfilter]
    exact mapArgs_length (normDoc g2) (pySplit ',' seg') args hm
  · intro i hi hj
    revert hj
    rw [hfilter]
    intro hj
    obtain ⟨a, ha1, ha2⟩ := mapArgs_get (normDoc g2) (pySplit ',' seg') args hm i hi hj
    refine ⟨a, ?_, ha2⟩
    rw [hdoc]
    exact ha1

/-- C5 witness: the `eraSepp` declaration has 2 fragments and exactly 2
non-return arguments. -/
theorem c5_arg_count_order_witness :
    (seppFn.args.filter (fun p => !(FArg.isRet p))).length =
      (pySplit ',' (strL "double a[3], double b[3]")).length :=
  (c5_arg_count_order (strL "eraSepp") seppSrc (strL "sepp.c")
      (strL "double a[3], double b[3]") none seppFn rfl rfl).1

/-- C6: a function whose declared return type is exactly `"double"`
appends exactly one `Return` slot (name `"ret"`, direction tag `"ret"`)
as the last argument, the other arguments being plain `Argument`s; any
other declared return type appends no `Return` slot. -/
theorem c6_return_slot (name src fp : Str) (ml : Option Str) (f : Function)
    (hok : mkFunction name src ml fp = Except.ok f) :
    (f.ret = strL "double" →
        f.args.getLast? = some (FArg.ret (mkReturn (strL "double"))) ∧
          f.args.dropLast.all (fun p => !(FArg.isRet p)) = true) ∧
      (f.ret ≠ strL "double" → f.args.all (fun p => !(FArg.isRet p)) = true) ∧
      (mkReturn (strL "double")).name = strL "ret" ∧
      (mkReturn (strL "double")).inout_state = strL "ret" := by
  obtain ⟨contents, hcf⟩ := mkFunction_ok_contents name src fp ml f hok
  obtain ⟨g1, g2, seg, args, r, hl, hp, hm, hr, hf⟩ :=
    mkFunctionFrom_ok_inv name contents f hcf
  have hargs : f.args =
      (if r = strL "double" then args ++ [FArg.ret (mkReturn r)] else args) := by
    rw [hf]
  have hret : f.ret = r := by rw [hf]
  have hnr := mapArgs_not_ret (normDoc g2) (pySplit ',' seg) args hm
  refine ⟨?_, ?_, rfl, rfl⟩
  · intro hd
    have hrd : r = strL "double" := by rw [← hret]; exact hd
    constructor
    · rw [hargs, if_pos hrd, hrd]
      exact List.getLast?_concat _
    · rw [hargs, if_pos hrd, List.dropLast_concat, List.all_eq_true]
      intro p hp2
      simp [hnr p hp2]
  · intro hd
    have hrd : r ≠ strL "double" := by rw [← hret]; exact hd
    rw [hargs, if_neg hrd, List.all_eq_true]
    intro p hp2
    simp [hnr p hp2]

/-- C6 witness: `eraSepp` returns `double` and its last argument is the
`Return` slot. -/
theorem c6_return_slot_witness :
    seppFn.args.getLast? = some (FArg.ret (mkReturn (strL "double"))) :=
  ((c6_return_slot (strL "eraSepp") seppSrc (strL "sepp.c") none seppFn rfl).1 rfl).1

/-- C7: `args_by_inout` is a stable filter — an ordered subsequence of
the argument list; and end-to-end the `eraSepp` scenario yields name
`eraSepp`, two `double[3]` arguments with direction `in`, a trailing
return slot, and `args_by_inout("in", "name", ",") = "a,b"`. -/
theorem c7_select_by_direction :
    (∀ (f : Function) (fil : Str),
        List.Sublist (Function.args_by_inout f fil) f.args) ∧
      mkFunction (strL "eraSepp") seppSrc none (strL "sepp.c") = Except.ok seppFn ∧
      seppFn.name = strL "eraSepp" ∧
      seppFn.args =
        [FArg.arg seppA, FArg.arg seppB, FArg.ret (mkReturn (strL "double"))] ∧
      seppA.inout_state = strL "in" ∧ seppA.ctype = strL "double[3]" ∧
      seppB.inout_state = strL "in" ∧ seppB.ctype = strL "double[3]" ∧
      Function.args_by_inout_name_join seppFn (strL "in") (strL ",") = strL "a,b" := by
  refine ⟨?_, rfl, rfl, rfl, rfl, rfl, rfl, rfl, rfl⟩
  intro f fil
  exact List.filter_sublist _
